import Mathlib

/-!
Verification of the chunking + vector-index + retrieval pipeline of the
agent-school RAG notebooks.

The repository's notebooks call external library components
(`RecursiveCharacterTextSplitter`, `FAISS`, retriever, persistence); the
notebook sources only contain the calls, configuration and the custom
document loader.  The chunker, vector index, search, and persistence
operations are therefore modelled from the specification; the custom
document loader and the index-build pipeline are translated directly from
the notebook code.

Rationals stand in for IEEE floating point values.  A cosine similarity
score is represented exactly by the pair `(d, s)` standing for the real
number `d / sqrt s`: `d` is the dot product of query and stored vector and
`s` the product of their squared L2 norms, so ordering comparisons on the
real cosine values can be decided exactly on the pairs without square
roots.
-/

/-! ## Chunker (modelled from spec §4.1) -/

/-- Error raised by the chunker on a bad configuration (spec §4.1). -/
inductive ChunkError where
  | invalidConfiguration
deriving DecidableEq, Repr

/-- Modelled from the spec: §4.1 chunking algorithm (the implementation,
`RecursiveCharacterTextSplitter`, is library code absent from the
repository sources).  Advances a window of length `size` across the text;
each subsequent window starts `size - ov` characters after the previous
start; the final window is truncated to the remaining text; no empty chunk
is emitted for a zero-length remainder.  `fuel` is a structural-recursion
bound; callers pass the text length, which suffices whenever `ov < size`. -/
def chunkAux (size ov : Nat) : Nat → List Char → List (List Char)
  | _, [] => []
  | 0, _ :: _ => []
  | fuel + 1, c :: cs =>
    (c :: cs).take size :: chunkAux size ov fuel ((c :: cs).drop (size - ov))

/-- Modelled from the spec: `chunk(document_text, chunk_size, overlap)`
(§4.1).  Requires `chunk_size > 0` and `0 ≤ overlap < chunk_size`,
otherwise fails with `InvalidConfiguration`. -/
def chunk (text : List Char) (size ov : Nat) : Except ChunkError (List (List Char)) :=
  if 0 < size ∧ ov < size then Except.ok (chunkAux size ov text.length text)
  else Except.error ChunkError.invalidConfiguration

/-- Concatenation of chunk texts with each consecutive pair's overlapping
region (the first `ov` characters of every chunk after the first)
de-duplicated. -/
def dedupConcat (ov : Nat) : List (List Char) → List Char
  | [] => []
  | c :: cs => c ++ cs.flatMap (List.drop ov)

/-! ## Vector index and similarity search (modelled from spec §4.2) -/

/-- Similarity metric enumeration (spec §4.2 / §6 persisted header). -/
inductive SimilarityMetric where
  | cosine
  | euclidean
deriving DecidableEq, Repr

/-- Modelled from the spec: cosine similarity is the default metric
(§4.2). -/
def defaultMetric : SimilarityMetric := SimilarityMetric.cosine

/-- An Embedding Record (spec §3): a vector paired with the chunk payload
(document id, character offsets, source text). -/
structure EmbeddingRecord where
  id : Nat
  vector : List ℚ
  docId : Nat
  offsetStart : Nat
  offsetEnd : Nat
  text : String
deriving DecidableEq, Repr

/-- The Vector Index (spec §3): the searchable collection of embedding
records for one corpus, its fixed dimension `D` and its metric. -/
structure VectorIndex where
  records : List EmbeddingRecord
  dim : Nat
  metric : SimilarityMetric
deriving DecidableEq, Repr

/-- Dot product of two rational vectors. -/
def dot (v w : List ℚ) : ℚ := (List.zipWith (· * ·) v w).sum

/-- Squared L2 norm. -/
def normSq (v : List ℚ) : ℚ := dot v v

/-- Squared Euclidean distance. -/
def distSq (v w : List ℚ) : ℚ := (List.zipWith (fun a b => (a - b) * (a - b)) v w).sum

/-- Modelled from the spec: the similarity score of stored vector `v` for
query `q` (§4.2).  For cosine the score is represented exactly as the pair
`(dot q v, ‖q‖² * ‖v‖²)`, standing for the real cosine
`dot q v / sqrt (‖q‖² * ‖v‖²)` (the dot product of the L2-normalized
vectors); for Euclidean the score is the squared distance (ascending
order), paired with `1`. -/
def simScore (m : SimilarityMetric) (q v : List ℚ) : ℚ × ℚ :=
  match m with
  | SimilarityMetric.cosine => (dot q v, normSq q * normSq v)
  | SimilarityMetric.euclidean => (distSq q v, 1)

/-- Exact comparison `d₁ / sqrt s₁ ≤ d₂ / sqrt s₂` of two represented
cosine values, decided without square roots by sign analysis and squaring.
A zero squared-norm (`s = 0`) is the guard case of spec §4.2 numeric
semantics: such a vector's similarity is the minimum possible score. -/
def scoreLE (x y : ℚ × ℚ) : Bool :=
  if x.2 = 0 then true
  else if y.2 = 0 then false
  else if x.1 < 0 then decide (0 ≤ y.1) || decide (y.1 * y.1 * x.2 ≤ x.1 * x.1 * y.2)
  else decide (0 ≤ y.1) && decide (x.1 * x.1 * y.2 ≤ y.1 * y.1 * x.2)

/-- `simLE m q v₁ v₂` holds when `v₁`'s similarity to `q` is at most
`v₂`'s similarity to `q` (higher similarity = better match; for the
Euclidean metric a smaller distance is a higher similarity). -/
def simLE (m : SimilarityMetric) (q v₁ v₂ : List ℚ) : Bool :=
  match m with
  | SimilarityMetric.cosine =>
    scoreLE (simScore SimilarityMetric.cosine q v₁) (simScore SimilarityMetric.cosine q v₂)
  | SimilarityMetric.euclidean =>
    decide ((simScore SimilarityMetric.euclidean q v₂).1 ≤
      (simScore SimilarityMetric.euclidean q v₁).1)

/-- Modelled from the spec: the result ordering of `search` (§4.2) —
descending similarity, ties broken by lower internal id (earliest
inserted wins).  `rankLE m q r₁ r₂` holds when `r₁` may be placed no
later than `r₂`. -/
def rankLE (m : SimilarityMetric) (q : List ℚ) (r₁ r₂ : EmbeddingRecord) : Bool :=
  (simLE m q r₂.vector r₁.vector && !simLE m q r₁.vector r₂.vector)
    || (simLE m q r₁.vector r₂.vector && simLE m q r₂.vector r₁.vector
        && decide (r₁.id ≤ r₂.id))

/-- Query-time errors of `search` (spec §4.2 / §7). -/
inductive SearchError where
  | emptyIndex
  | invalidK
deriving DecidableEq, Repr

instance rankLEDecRel (m : SimilarityMetric) (q : List ℚ) :
    DecidableRel (fun r₁ r₂ : EmbeddingRecord => rankLE m q r₁ r₂ = true) :=
  fun _ _ => inferInstance

/-- Modelled from the spec: `search(query_vector, k)` (§4.2, the FAISS
search implementation is library code absent from the repository sources).
Computes the similarity of every stored vector, returns the `k`
highest-scoring records sorted descending by score, ties broken by lower
internal id; fails with `EmptyIndex` when no records are stored and with
`InvalidK` when `k ≤ 0`. -/
def search (idx : VectorIndex) (q : List ℚ) (k : Int) :
    Except SearchError (List (EmbeddingRecord × (ℚ × ℚ))) :=
  if idx.records.isEmpty then Except.error SearchError.emptyIndex
  else if k ≤ 0 then Except.error SearchError.invalidK
  else Except.ok
    (((idx.records.insertionSort
        (fun r₁ r₂ => rankLE idx.metric q r₁ r₂ = true)).take k.toNat).map
      (fun r => (r, simScore idx.metric q r.vector)))

/-- Scenario record holding vector `[1, 0]` (spec §8 cosine scenario). -/
def rec0 : EmbeddingRecord :=
  { id := 0, vector := [1, 0], docId := 0, offsetStart := 0, offsetEnd := 0, text := "A" }

/-- Scenario record holding vector `[0, 1]`. -/
def rec1 : EmbeddingRecord :=
  { id := 1, vector := [0, 1], docId := 0, offsetStart := 0, offsetEnd := 0, text := "B" }

/-- Scenario record holding vector `[0.9, 0.1]`. -/
def rec2 : EmbeddingRecord :=
  { id := 2, vector := [9/10, 1/10], docId := 0, offsetStart := 0, offsetEnd := 0, text := "C" }

/-- The three-vector scenario index of spec §8, built with the default
metric. -/
def cosineScenarioIndex : VectorIndex :=
  { records := [rec0, rec1, rec2], dim := 2, metric := defaultMetric }

/-! ## Persistence (modelled from spec §4.2 `save`/`load` and the §6
persisted file format: a header `{dimension, metric, record_count}`
followed by the records; the exact byte layout is an implementation
choice, modelled here as a token stream) -/

/-- One primitive field of the persisted index file. -/
inductive Token where
  | nat (n : Nat)
  | rat (q : ℚ)
  | str (s : String)
deriving DecidableEq, Repr

/-- Errors of `load` (spec §4.2 / §7). -/
inductive LoadError where
  | corruptFile
  | metricMismatch
deriving DecidableEq, Repr

/-- Numeric tag of a metric in the persisted header. -/
def metricCode : SimilarityMetric → Nat
  | SimilarityMetric.cosine => 0
  | SimilarityMetric.euclidean => 1

/-- Inverse of `metricCode`. -/
def decodeMetric : Nat → Except LoadError SimilarityMetric
  | 0 => Except.ok SimilarityMetric.cosine
  | 1 => Except.ok SimilarityMetric.euclidean
  | _ => Except.error LoadError.corruptFile

/-- Serialized form of one record: `{id, vector, document_id,
offset_start, offset_end, text}` (spec §6). -/
def encodeRecord (r : EmbeddingRecord) : List Token :=
  Token.nat r.id :: (r.vector.map Token.rat ++
    [Token.nat r.docId, Token.nat r.offsetStart, Token.nat r.offsetEnd, Token.str r.text])

/-- Modelled from the spec: `save(path)` (§4.2; FAISS `save_local` is
library code absent from the repository sources).  Serializes the header
(`D`, metric, record count) followed by every record. -/
def save (idx : VectorIndex) : List Token :=
  Token.nat idx.dim :: Token.nat (metricCode idx.metric) ::
    Token.nat idx.records.length :: idx.records.flatMap encodeRecord

/-- Reads one `Nat` field. -/
def readNat : List Token → Except LoadError (Nat × List Token)
  | Token.nat n :: ts => Except.ok (n, ts)
  | _ => Except.error LoadError.corruptFile

/-- Reads one rational (float) field. -/
def readRat : List Token → Except LoadError (ℚ × List Token)
  | Token.rat q :: ts => Except.ok (q, ts)
  | _ => Except.error LoadError.corruptFile

/-- Reads one string field. -/
def readStr : List Token → Except LoadError (String × List Token)
  | Token.str s :: ts => Except.ok (s, ts)
  | _ => Except.error LoadError.corruptFile

/-- Reads a vector of exactly `dim` components. -/
def readVec : Nat → List Token → Except LoadError (List ℚ × List Token)
  | 0, ts => Except.ok ([], ts)
  | n + 1, ts =>
    match readRat ts with
    | Except.error e => Except.error e
    | Except.ok (q, ts₁) =>
      match readVec n ts₁ with
      | Except.error e => Except.error e
      | Except.ok (v, ts₂) => Except.ok (q :: v, ts₂)

/-- Reads one serialized record with a `dim`-component vector. -/
def readRecord (dim : Nat) (ts : List Token) :
    Except LoadError (EmbeddingRecord × List Token) :=
  match readNat ts with
  | Except.error e => Except.error e
  | Except.ok (i, ts₁) =>
    match readVec dim ts₁ with
    | Except.error e => Except.error e
    | Except.ok (v, ts₂) =>
      match readNat ts₂ with
      | Except.error e => Except.error e
      | Except.ok (d, ts₃) =>
        match readNat ts₃ with
        | Except.error e => Except.error e
        | Except.ok (os, ts₄) =>
          match readNat ts₄ with
          | Except.error e => Except.error e
          | Except.ok (oe, ts₅) =>
            match readStr ts₅ with
            | Except.error e => Except.error e
            | Except.ok (x, ts₆) =>
              Except.ok (⟨i, v, d, os, oe, x⟩, ts₆)

/-- Reads `count` serialized records. -/
def readRecords :
    Nat → Nat → List Token → Except LoadError (List EmbeddingRecord × List Token)
  | 0, _, ts => Except.ok ([], ts)
  | n + 1, dim, ts =>
    match readRecord dim ts with
    | Except.error e => Except.error e
    | Except.ok (r, ts₁) =>
      match readRecords n dim ts₁ with
      | Except.error e => Except.error e
      | Except.ok (rs, ts₂) => Except.ok (r :: rs, ts₂)

/-- Modelled from the spec: `load(path)` (§4.2; FAISS `load_local` is
library code absent from the repository sources).  Deserializes the header
and records; fails with `MetricMismatch` when the persisted metric differs
from the configured one, and with a corrupt-file error on any malformed
content. -/
def load (configured : SimilarityMetric) (ts : List Token) : Except LoadError VectorIndex :=
  match readNat ts with
  | Except.error e => Except.error e
  | Except.ok (dim, ts₁) =>
    match readNat ts₁ with
    | Except.error e => Except.error e
    | Except.ok (mcode, ts₂) =>
      match decodeMetric mcode with
      | Except.error e => Except.error e
      | Except.ok metric =>
        if metric ≠ configured then Except.error LoadError.metricMismatch
        else
          match readNat ts₂ with
          | Except.error e => Except.error e
          | Except.ok (count, ts₃) =>
            match readRecords count dim ts₃ with
            | Except.error e => Except.error e
            | Except.ok (recs, ts₄) =>
              if ts₄.isEmpty then
                Except.ok { records := recs, dim := dim, metric := metric }
              else Except.error LoadError.corruptFile

/-! ## Prompt assembler (from the RAG query cell of
src/src/FAISSVectorStoreRAG.ipynb) -/

/-- The literal fallback instruction sentence of the notebook prompt. -/
def fallbackSentence : String := "I don\x27t have enough information to answer that."

/-- The instruction header of the notebook prompt, up to and including the
`Context:` label.  It quotes `fallbackSentence` verbatim. -/
def promptHeader : String :=
  "\nYou are a helpful assistant.\n\nUse only the information in the context below to answer the question.\nIf the answer is not in the context, say:\n\x22I don\x27t have enough information to answer that.\x22\n\nContext:\n"

/-- The label placed between the context block and the question. -/
def questionLabel : String := "\n\nQuestion: "

/-- The trailing `Answer:` label of the notebook prompt. -/
def promptTail : String := "\nAnswer:\n"

/-- The grounded prompt of the notebook query cell: the retrieved segments
are joined by a blank line (`"\n\n".join`) into the context, which is
interpolated between the instruction header and the question. -/
def assemble (question : String) (segments : List String) : String :=
  let context := String.intercalate "\n\n" segments
  promptHeader ++ context ++ questionLabel ++ question ++ promptTail

/-! ## Custom document loader and index build pipeline (from the loader
and build cells of src/src/FAISSVectorStoreRAG.ipynb) -/

/-- A loader-produced document: page content plus source metadata. -/
structure Document where
  pageContent : String
  source : String
deriving DecidableEq, Repr

/-- A file on disk as seen by the loaders: name and raw text content. -/
structure SrcFile where
  name : String
  content : String
deriving DecidableEq, Repr

/-- One element of the heterogeneous list built by
`CustomDocumentLoader.load`: either the raw text of a `.txt` file or a
loader-produced `Document`. -/
inductive LoadedItem where
  | rawText (s : String)
  | doc (d : Document)
deriving DecidableEq, Repr

/-- Python's `str.endswith`. -/
def strEndsWith (s pat : String) : Bool := List.isSuffixOf pat.toList s.toList

/-- `CustomDocumentLoader.load`: walks the files, appending the raw text
of every `.txt` file, extending with the CSV loader's documents for every
`.csv` file and with the PDF loader's documents for every `.pdf` file, and
silently skipping every other file.  The external `CSVLoader` and
`PyMuPDFLoader` are abstracted as function parameters. -/
def customLoad (csvLoad pdfLoad : SrcFile → List Document)
    (files : List SrcFile) : List LoadedItem :=
  files.foldl (fun documents file =>
    if strEndsWith file.name ".txt" then documents ++ [LoadedItem.rawText file.content]
    else if strEndsWith file.name ".csv" then documents ++ (csvLoad file).map LoadedItem.doc
    else if strEndsWith file.name ".pdf" then documents ++ (pdfLoad file).map LoadedItem.doc
    else documents) []

/-- The items `CustomDocumentLoader.load` contributes for a single file. -/
def fileItems (csvLoad pdfLoad : SrcFile → List Document) (file : SrcFile) :
    List LoadedItem :=
  if strEndsWith file.name ".txt" then [LoadedItem.rawText file.content]
  else if strEndsWith file.name ".csv" then (csvLoad file).map LoadedItem.doc
  else if strEndsWith file.name ".pdf" then (pdfLoad file).map LoadedItem.doc
  else []

/-- `DirectoryLoader` with glob `"**/*.txt"`: loads only the `.txt` files,
each turned into a `Document` by the (abstracted) unstructured parser
`mkDoc`. -/
def directoryLoadTxt (mkDoc : SrcFile → Document) (files : List SrcFile) : List Document :=
  (files.filter (fun f => strEndsWith f.name ".txt")).map mkDoc

/-- `splitter.split_documents` with the notebook configuration
`chunk_size=500, chunk_overlap=50`: each document's text is chunked and
every chunk becomes a document carrying the source metadata. -/
def splitDocuments (docs : List Document) : List Document :=
  docs.flatMap (fun d =>
    (chunkAux 500 50 d.pageContent.toList.length d.pageContent.toList).map
      (fun c => { pageContent := String.mk c, source := d.source }))

/-- `FAISS.from_documents`: embeds every chunk and stores the records with
monotonically increasing ids, under the default metric. -/
def fromDocuments (embed : String → List ℚ) (dim : Nat) (chunks : List Document) :
    VectorIndex :=
  { records := chunks.enum.map (fun p =>
      { id := p.1, vector := embed p.2.pageContent, docId := 0, offsetStart := 0,
        offsetEnd := 0, text := p.2.pageContent }),
    dim := dim,
    metric := defaultMetric }

/-- The notebook build pipeline: the first cell binds `docs` to the output
of `CustomDocumentLoader.load`; the build cell then rebinds `docs` to the
`DirectoryLoader` (txt-only) output — shadowing the first binding exactly
as the notebook reassigns the variable — chunks them, and builds the
index. -/
def buildIndexFromFiles (csvLoad pdfLoad : SrcFile → List Document)
    (mkDoc : SrcFile → Document) (embed : String → List ℚ) (dim : Nat)
    (files : List SrcFile) : VectorIndex :=
  let docs := customLoad csvLoad pdfLoad files
  let docs := directoryLoadTxt mkDoc files
  fromDocuments embed dim (splitDocuments docs)

/-- A small concrete index used to exercise the persistence round trip. -/
def roundTripIndex : VectorIndex :=
  { records := [⟨0, [3, 4], 1, 0, 2, "hi"⟩, ⟨1, [5, 12], 1, 2, 4, "yo"⟩],
    dim := 2, metric := SimilarityMetric.cosine }

/-- Ceiling-division step identity used for the chunk count. -/
theorem ceilDiv_succ (step len : Nat) (hstep : 0 < step) (hlen : 0 < len) :
    (len + step - 1) / step = (len - step + step - 1) / step + 1 := by
  rcases le_or_lt len step with hle | hgt
  · have h1 : len + step - 1 = (len - 1) + step := by omega
    have h2 : len - step + step - 1 = step - 1 := by omega
    have d1 : (len - 1) / step = 0 := Nat.div_eq_of_lt (by omega)
    have d2 : (step - 1) / step = 0 := Nat.div_eq_of_lt (by omega)
    rw [h1, h2, Nat.add_div_right _ hstep, d1, d2]
  · have h1 : len + step - 1 = (len - 1) + step := by omega
    have h2 : len - step + step - 1 = (len - step - 1) + step := by omega
    have h3 : len - 1 = (len - step - 1) + step := by omega
    rw [h1, h2, Nat.add_div_right _ hstep, Nat.add_div_right _ hstep, h3,
      Nat.add_div_right _ hstep]

/-- Closed form of the chunker: the `i`-th chunk is the window of length
`size` starting at `i * (size - ov)`, and there are `⌈len/step⌉` chunks. -/
theorem chunkAux_closed (size ov : Nat) (ho : ov < size) :
    ∀ (fuel : Nat) (text : List Char), text.length ≤ fuel →
      chunkAux size ov fuel text =
        (List.range ((text.length + (size - ov) - 1) / (size - ov))).map
          (fun i => (text.drop (i * (size - ov))).take size) := by
  intro fuel
  induction fuel with
  | zero =>
    intro text ht
    have hnil : text = [] := List.eq_nil_of_length_eq_zero (Nat.le_zero.mp ht)
    subst hnil
    simp only [chunkAux, List.length_nil]
    rw [Nat.zero_add, Nat.div_eq_of_lt (by omega)]
    rfl
  | succ n ih =>
    intro text ht
    match text with
    | [] =>
      simp only [chunkAux, List.length_nil]
      rw [Nat.zero_add, Nat.div_eq_of_lt (by omega)]
      rfl
    | c :: cs =>
      have hstep : 0 < size - ov := by omega
      simp only [List.length_cons] at ht
      have hfuel : ((c :: cs).drop (size - ov)).length ≤ n := by
        simp only [List.length_drop, List.length_cons]
        omega
      have hrec : chunkAux size ov (n + 1) (c :: cs) =
          (c :: cs).take size :: chunkAux size ov n ((c :: cs).drop (size - ov)) := rfl
      rw [hrec, ih _ hfuel]
      simp only [List.length_drop, List.length_cons]
      have hm : (cs.length + 1 + (size - ov) - 1) / (size - ov) =
          (cs.length + 1 - (size - ov) + (size - ov) - 1) / (size - ov) + 1 :=
        ceilDiv_succ (size - ov) (cs.length + 1) hstep (by omega)
      rw [hm, List.range_succ_eq_map, List.map_cons, List.map_map]
      refine congrArg₂ List.cons (by simp) ?_
      refine List.map_congr_left fun i _ => ?_
      simp only [Function.comp_apply, List.drop_drop]
      have hmul : Nat.succ i * (size - ov) = (size - ov) + i * (size - ov) := by
        rw [Nat.succ_mul, Nat.add_comm]
      rw [hmul]

/-- Reconstruction helper: a window of the text followed by the
de-duplicated chunks of the rest of the text yields the text back. -/
theorem take_append_flatMap_drop (size ov : Nat) (ho : ov < size) :
    ∀ (fuel : Nat) (t : List Char), (t.drop (size - ov)).length ≤ fuel →
      t.take size ++ (chunkAux size ov fuel (t.drop (size - ov))).flatMap (List.drop ov) = t := by
  intro fuel
  induction fuel with
  | zero =>
    intro t ht
    have hnil : t.drop (size - ov) = [] := List.eq_nil_of_length_eq_zero (Nat.le_zero.mp ht)
    have hlen : t.length ≤ size := by
      have hl := congrArg List.length hnil
      simp only [List.length_drop, List.length_nil] at hl
      omega
    rw [hnil]
    show t.take size ++ [] = t
    rw [List.append_nil, List.take_of_length_le hlen]
  | succ n ih =>
    intro t ht
    cases hd : t.drop (size - ov) with
    | nil =>
      have hlen : t.length ≤ size := by
        have hl := congrArg List.length hd
        simp only [List.length_drop, List.length_nil] at hl
        omega
      show t.take size ++ [] = t
      rw [List.append_nil, List.take_of_length_le hlen]
    | cons d ds =>
      have hstep : 0 < size - ov := by omega
      rw [hd] at ht
      simp only [List.length_cons] at ht
      have hih : ((d :: ds).drop (size - ov)).length ≤ n := by
        simp only [List.length_drop, List.length_cons]
        omega
      have hrec : chunkAux size ov (n + 1) (d :: ds) =
          (d :: ds).take size :: chunkAux size ov n ((d :: ds).drop (size - ov)) := rfl
      rw [hrec]
      have hsum2 : ov + (size - ov) = size := by omega
      have e1 : t.take size = t.take (size - ov) ++ (t.drop (size - ov)).take ov := by
        have hsum : size - ov + ov = size := by omega
        rw [← hsum, List.take_add, hsum]
      have e3 : (d :: ds).take ov ++ ((d :: ds).drop ov).take (size - ov) =
          (d :: ds).take size := by
        rw [← List.take_add, hsum2]
      show t.take size ++
          (List.drop ov ((d :: ds).take size) ++
            (chunkAux size ov n ((d :: ds).drop (size - ov))).flatMap (List.drop ov)) = t
      rw [List.drop_take, e1, hd, List.append_assoc, ← List.append_assoc ((d :: ds).take ov),
        e3, ih _ hih, ← hd, List.take_append_drop]

/-- C2: chunking `"abcdefghijkl"` with `chunk_size = 5`, `overlap = 2`
yields `["abcde", "defgh", "ghijk", "jkl"]`; in general, for a valid
configuration, the `i`-th window starts at `i * (chunk_size - overlap)`
(so each subsequent window starts at the previous start plus
`chunk_size - overlap`) and every window — in particular the final one —
is the text truncated to at most `chunk_size` characters from its start. -/
theorem chunk_window_layout :
    chunk "abcdefghijkl".toList 5 2 =
        Except.ok ["abcde".toList, "defgh".toList, "ghijk".toList, "jkl".toList]
      ∧ ∀ (text : List Char) (size ov : Nat), 0 < size → ov < size →
          chunk text size ov =
            Except.ok ((List.range ((text.length + (size - ov) - 1) / (size - ov))).map
              (fun i => (text.drop (i * (size - ov))).take size)) := by
  refine ⟨rfl, ?_⟩
  intro text size ov hsz ho
  rw [chunk, if_pos ⟨hsz, ho⟩, chunkAux_closed size ov ho text.length text le_rfl]

/-- Witness for C2 at text `"abcde"`, `chunk_size = 3`, `overlap = 1`. -/
theorem chunk_window_layout_witness :
    (0 < 3 ∧ 1 < 3) ∧
      chunk "abcde".toList 3 1 =
        Except.ok ((List.range ((("abcde".toList).length + (3 - 1) - 1) / (3 - 1))).map
          (fun i => (("abcde".toList).drop (i * (3 - 1))).take 3)) :=
  ⟨⟨by decide, by decide⟩, chunk_window_layout.2 "abcde".toList 3 1 (by decide) (by decide)⟩

/-- C3: for every valid configuration, concatenating the chunk texts with
each consecutive pair's overlapping region de-duplicated reconstructs the
original document text exactly. -/
theorem chunk_reconstructs_text (text : List Char) (size ov : Nat) (cs : List (List Char))
    (hsz : 0 < size) (ho : ov < size) (h : chunk text size ov = Except.ok cs) :
    dedupConcat ov cs = text := by
  rw [chunk, if_pos ⟨hsz, ho⟩] at h
  have hcs : cs = chunkAux size ov text.length text := by
    cases h
    rfl
  subst hcs
  cases text with
  | nil => rfl
  | cons c cs' =>
    have hrec : chunkAux size ov (c :: cs').length (c :: cs') =
        (c :: cs').take size :: chunkAux size ov cs'.length ((c :: cs').drop (size - ov)) := rfl
    rw [hrec]
    show (c :: cs').take size ++
        (chunkAux size ov cs'.length ((c :: cs').drop (size - ov))).flatMap (List.drop ov) =
      c :: cs'
    refine take_append_flatMap_drop size ov ho cs'.length (c :: cs') ?_
    simp only [List.length_drop, List.length_cons]
    omega

/-- Witness for C3 at the 12-character scenario text. -/
theorem chunk_reconstructs_text_witness :
    dedupConcat 2 ["abcde".toList, "defgh".toList, "ghijk".toList, "jkl".toList] =
      "abcdefghijkl".toList :=
  chunk_reconstructs_text "abcdefghijkl".toList 5 2 _ (by decide) (by decide) rfl

/-! ## Similarity-ordering lemmas -/

/-- A squared norm is non-negative. -/
theorem normSq_nonneg (v : List ℚ) : 0 ≤ normSq v := by
  induction v with
  | nil => simp [normSq, dot]
  | cons x xs ih =>
    simp only [normSq, dot, List.zipWith_cons_cons, List.sum_cons]
    exact add_nonneg (mul_self_nonneg x) ih

/-- `scoreLE` is total. -/
theorem scoreLE_total (x y : ℚ × ℚ) : scoreLE x y = true ∨ scoreLE y x = true := by
  rcases x with ⟨a, s⟩
  rcases y with ⟨b, t⟩
  simp only [scoreLE]
  by_cases hs : s = 0
  · left; simp [hs]
  · by_cases ht : t = 0
    · right; simp [ht]
    · rw [if_neg hs, if_neg ht, if_neg ht, if_neg hs]
      by_cases ha : a < 0 <;> by_cases hb : b < 0
      · rw [if_pos ha, if_pos hb]
        simp only [Bool.or_eq_true, decide_eq_true_eq]
        rcases le_total (b * b * s) (a * a * t) with h | h
        · exact Or.inl (Or.inr h)
        · exact Or.inr (Or.inr h)
      · rw [if_pos ha]
        simp only [Bool.or_eq_true, decide_eq_true_eq]
        exact Or.inl (Or.inl (not_lt.mp hb))
      · rw [if_pos hb]
        simp only [Bool.or_eq_true, decide_eq_true_eq]
        exact Or.inr (Or.inl (not_lt.mp ha))
      · rw [if_neg ha, if_neg hb]
        simp only [Bool.and_eq_true, decide_eq_true_eq]
        rcases le_total (a * a * t) (b * b * s) with h | h
        · exact Or.inl ⟨not_lt.mp hb, h⟩
        · exact Or.inr ⟨not_lt.mp ha, h⟩

/-- `scoreLE` is transitive on pairs with non-negative second component
(squared norms are non-negative, so this covers every actual score). -/
theorem scoreLE_trans {a s b t c u : ℚ} (hs : 0 ≤ s) (ht : 0 ≤ t) (hu : 0 ≤ u)
    (h1 : scoreLE (a, s) (b, t) = true) (h2 : scoreLE (b, t) (c, u) = true) :
    scoreLE (a, s) (c, u) = true := by
  by_cases hs0 : s = 0
  · simp [scoreLE, hs0]
  · have hs' : 0 < s := hs.lt_of_ne (Ne.symm hs0)
    by_cases ht0 : t = 0
    · exfalso
      simp [scoreLE, hs0, ht0] at h1
    · have ht' : 0 < t := ht.lt_of_ne (Ne.symm ht0)
      by_cases hu0 : u = 0
      · exfalso
        simp [scoreLE, ht0, hu0] at h2
      · have hu' : 0 < u := hu.lt_of_ne (Ne.symm hu0)
        simp only [scoreLE] at h1 h2 ⊢
        rw [if_neg hs0, if_neg ht0] at h1
        rw [if_neg ht0, if_neg hu0] at h2
        rw [if_neg hs0, if_neg hu0]
        by_cases ha : a < 0
        · rw [if_pos ha] at h1 ⊢
          simp only [Bool.or_eq_true, decide_eq_true_eq] at h1 ⊢
          by_cases hc : c < 0
          · have hc' : ¬(0 ≤ c) := not_le.mpr hc
            by_cases hb : b < 0
            · rw [if_pos hb] at h2
              simp only [Bool.or_eq_true, decide_eq_true_eq] at h2
              have h1' : b * b * s ≤ a * a * t := by
                rcases h1 with h | h
                · exact absurd h (not_le.mpr hb)
                · exact h
              have h2' : c * c * t ≤ b * b * u := by
                rcases h2 with h | h
                · exact absurd h hc'
                · exact h
              refine Or.inr ?_
              have p1 : b * b * s * u ≤ a * a * t * u :=
                mul_le_mul_of_nonneg_right h1' hu'.le
              have p2 : c * c * t * s ≤ b * b * u * s :=
                mul_le_mul_of_nonneg_right h2' hs'.le
              have key : t * (c * c * s) ≤ t * (a * a * u) := by nlinarith [p1, p2]
              exact le_of_mul_le_mul_left key ht'
            · rw [if_neg hb] at h2
              simp only [Bool.and_eq_true, decide_eq_true_eq] at h2
              exact absurd h2.1 hc'
          · exact Or.inl (not_lt.mp hc)
        · rw [if_neg ha] at h1
          rw [if_neg ha]
          simp only [Bool.and_eq_true, decide_eq_true_eq] at h1
          obtain ⟨hb0, h1'⟩ := h1
          have hb : ¬(b < 0) := not_lt.mpr hb0
          rw [if_neg hb] at h2
          simp only [Bool.and_eq_true, decide_eq_true_eq] at h2
          obtain ⟨hc0, h2'⟩ := h2
          simp only [Bool.and_eq_true, decide_eq_true_eq]
          refine ⟨hc0, ?_⟩
          have p1 : a * a * t * u ≤ b * b * s * u :=
            mul_le_mul_of_nonneg_right h1' hu'.le
          have p2 : b * b * u * s ≤ c * c * t * s :=
            mul_le_mul_of_nonneg_right h2' hs'.le
          have key : t * (a * a * u) ≤ t * (c * c * s) := by nlinarith [p1, p2]
          exact le_of_mul_le_mul_left key ht'

/-- `simLE` is total for every metric. -/
theorem simLE_total (m : SimilarityMetric) (q v₁ v₂ : List ℚ) :
    simLE m q v₁ v₂ = true ∨ simLE m q v₂ v₁ = true := by
  cases m
  · exact scoreLE_total _ _
  · simp only [simLE, decide_eq_true_eq]
    exact le_total _ _

/-- `simLE` is transitive for every metric. -/
theorem simLE_trans (m : SimilarityMetric) (q v₁ v₂ v₃ : List ℚ)
    (h1 : simLE m q v₁ v₂ = true) (h2 : simLE m q v₂ v₃ = true) :
    simLE m q v₁ v₃ = true := by
  cases m
  · exact scoreLE_trans (mul_nonneg (normSq_nonneg q) (normSq_nonneg v₁))
      (mul_nonneg (normSq_nonneg q) (normSq_nonneg v₂))
      (mul_nonneg (normSq_nonneg q) (normSq_nonneg v₃)) h1 h2
  · simp only [simLE, decide_eq_true_eq] at h1 h2 ⊢
    exact le_trans h2 h1

/-- The result ordering is total. -/
theorem rankLE_total (m : SimilarityMetric) (q : List ℚ) (r₁ r₂ : EmbeddingRecord) :
    rankLE m q r₁ r₂ = true ∨ rankLE m q r₂ r₁ = true := by
  simp only [rankLE, Bool.or_eq_true, Bool.and_eq_true, Bool.not_eq_true',
    decide_eq_true_eq]
  rcases Bool.eq_false_or_eq_true (simLE m q r₁.vector r₂.vector) with h12 | h12 <;>
    rcases Bool.eq_false_or_eq_true (simLE m q r₂.vector r₁.vector) with h21 | h21
  · rcases Nat.le_total r₁.id r₂.id with hid | hid
    · exact Or.inl (Or.inr ⟨⟨h12, h21⟩, hid⟩)
    · exact Or.inr (Or.inr ⟨⟨h21, h12⟩, hid⟩)
  · exact Or.inr (Or.inl ⟨h12, h21⟩)
  · exact Or.inl (Or.inl ⟨h21, h12⟩)
  · rcases simLE_total m q r₁.vector r₂.vector with h | h
    · rw [h12] at h; exact absurd h (by simp)
    · rw [h21] at h; exact absurd h (by simp)

/-- The result ordering is transitive. -/
theorem rankLE_trans (m : SimilarityMetric) (q : List ℚ) (r₁ r₂ r₃ : EmbeddingRecord)
    (h1 : rankLE m q r₁ r₂ = true) (h2 : rankLE m q r₂ r₃ = true) :
    rankLE m q r₁ r₃ = true := by
  simp only [rankLE, Bool.or_eq_true, Bool.and_eq_true, Bool.not_eq_true',
    decide_eq_true_eq] at h1 h2 ⊢
  have hfalse : ∀ v w : List ℚ, simLE m q v w = false → ¬(simLE m q v w = true) := by
    intro v w hf
    rw [hf]
    simp
  rcases h1 with ⟨h21, h12f⟩ | ⟨⟨h12, h21⟩, hid1⟩
  · rcases h2 with ⟨h32, h23f⟩ | ⟨⟨h23, h32⟩, hid2⟩
    · refine Or.inl ⟨simLE_trans m q _ _ _ h32 h21, ?_⟩
      rcases Bool.eq_false_or_eq_true (simLE m q r₁.vector r₃.vector) with h | h
      · exact absurd (simLE_trans m q _ _ _ h h32) (hfalse _ _ h12f)
      · exact h
    · refine Or.inl ⟨simLE_trans m q _ _ _ h32 h21, ?_⟩
      rcases Bool.eq_false_or_eq_true (simLE m q r₁.vector r₃.vector) with h | h
      · exact absurd (simLE_trans m q _ _ _ h h32) (hfalse _ _ h12f)
      · exact h
  · rcases h2 with ⟨h32, h23f⟩ | ⟨⟨h23, h32⟩, hid2⟩
    · refine Or.inl ⟨simLE_trans m q _ _ _ h32 h21, ?_⟩
      rcases Bool.eq_false_or_eq_true (simLE m q r₁.vector r₃.vector) with h | h
      · exact absurd (simLE_trans m q _ _ _ h21 h) (hfalse _ _ h23f)
      · exact h
    · exact Or.inr ⟨⟨simLE_trans m q _ _ _ h12 h23, simLE_trans m q _ _ _ h32 h21⟩,
        le_trans hid1 hid2⟩

/-- A record placed no later than another has similarity at least as
high. -/
theorem rankLE_sim (m : SimilarityMetric) (q : List ℚ) (r₁ r₂ : EmbeddingRecord)
    (h : rankLE m q r₁ r₂ = true) : simLE m q r₂.vector r₁.vector = true := by
  simp only [rankLE, Bool.or_eq_true, Bool.and_eq_true, Bool.not_eq_true',
    decide_eq_true_eq] at h
  rcases h with ⟨h, _⟩ | ⟨⟨_, h⟩, _⟩ <;> exact h

/-! ## Claim theorems about search -/

/-- C1: on every non-empty index and every `k > 0`, `search` succeeds and
returns at most `k` results, sorted by non-increasing similarity to the
query, and every returned record is one stored in the index. -/
theorem search_topk_sound (idx : VectorIndex) (q : List ℚ) (k : Int)
    (hne : idx.records ≠ []) (hk : 0 < k) :
    ∃ res, search idx q k = Except.ok res ∧
      (res.length : Int) ≤ k ∧
      res.Pairwise (fun p₁ p₂ => simLE idx.metric q p₂.1.vector p₁.1.vector = true) ∧
      ∀ p ∈ res, p.1 ∈ idx.records := by
  have hie : ¬(idx.records.isEmpty = true) := by
    cases hrec : idx.records with
    | nil => exact absurd hrec hne
    | cons a l => simp
  have hk' : ¬(k ≤ 0) := not_le.mpr hk
  rw [search, if_neg hie, if_neg hk']
  refine ⟨_, rfl, ?_, ?_, ?_⟩
  · have hlen : (((idx.records.insertionSort
          (fun r₁ r₂ => rankLE idx.metric q r₁ r₂ = true)).take k.toNat).map
        (fun r => (r, simScore idx.metric q r.vector))).length ≤ k.toNat := by
      rw [List.length_map]
      exact (List.length_take_le _ _)
    have hcast : (k.toNat : Int) = k := Int.toNat_of_nonneg hk.le
    omega
  · haveI : IsTotal EmbeddingRecord (fun r₁ r₂ => rankLE idx.metric q r₁ r₂ = true) :=
      ⟨fun a b => rankLE_total _ _ a b⟩
    haveI : IsTrans EmbeddingRecord (fun r₁ r₂ => rankLE idx.metric q r₁ r₂ = true) :=
      ⟨fun a b c => rankLE_trans _ _ a b c⟩
    have hsorted : (idx.records.insertionSort
        (fun r₁ r₂ => rankLE idx.metric q r₁ r₂ = true)).Pairwise
          (fun r₁ r₂ => rankLE idx.metric q r₁ r₂ = true) :=
      List.sorted_insertionSort _ _
    have htake := hsorted.sublist (List.take_sublist k.toNat _)
    rw [List.pairwise_map]
    exact htake.imp (fun h => rankLE_sim _ _ _ _ h)
  · intro p hp
    obtain ⟨r, hr, rfl⟩ := List.mem_map.mp hp
    have hr' := List.mem_of_mem_take hr
    exact (List.mem_insertionSort _).mp hr'

/-- Witness for C1 on a one-record index with `k = 1`. -/
theorem search_topk_sound_witness :
    (({ records := [rec0], dim := 2, metric := SimilarityMetric.cosine } :
        VectorIndex).records ≠ [] ∧ (0 : Int) < 1) ∧
      (∃ res,
        search { records := [rec0], dim := 2, metric := SimilarityMetric.cosine } [1, 0] 1 =
            Except.ok res ∧
          (res.length : Int) ≤ 1 ∧
          res.Pairwise (fun p₁ p₂ =>
            simLE ({ records := [rec0], dim := 2, metric := SimilarityMetric.cosine } :
              VectorIndex).metric [1, 0] p₂.1.vector p₁.1.vector = true) ∧
          ∀ p ∈ res,
            p.1 ∈ ({ records := [rec0], dim := 2, metric := SimilarityMetric.cosine } :
              VectorIndex).records) :=
  ⟨⟨by decide, by decide⟩,
    search_topk_sound { records := [rec0], dim := 2, metric := SimilarityMetric.cosine }
      [1, 0] 1 (by decide) (by decide)⟩

/-- C6: `search` on an index holding no records fails with `EmptyIndex`,
regardless of the query and `k`. -/
theorem search_empty_index (idx : VectorIndex) (q : List ℚ) (k : Int)
    (h : idx.records = []) :
    search idx q k = Except.error SearchError.emptyIndex := by
  have hie : idx.records.isEmpty = true := by rw [h]; rfl
  rw [search, if_pos hie]

/-- Witness for C6 on a freshly constructed empty index with `k = 5`. -/
theorem search_empty_index_witness :
    (({ records := [], dim := 2, metric := SimilarityMetric.cosine } :
        VectorIndex).records = []) ∧
      search { records := [], dim := 2, metric := SimilarityMetric.cosine } [1] 5 =
        Except.error SearchError.emptyIndex :=
  ⟨rfl, search_empty_index _ _ _ rfl⟩

/-- C8: `search` is a deterministic function of the index, the query
vector and `k`: two runs with identical inputs yield identical ordered
results. -/
theorem search_deterministic (idx : VectorIndex) (q : List ℚ) (k : Int)
    (out₁ out₂ : Except SearchError (List (EmbeddingRecord × (ℚ × ℚ))))
    (h₁ : search idx q k = out₁) (h₂ : search idx q k = out₂) : out₁ = out₂ :=
  h₁.symm.trans h₂

/-- Witness for C8: both runs on a concrete index evaluate identically. -/
theorem search_deterministic_witness :
    search cosineScenarioIndex [1, 0] 2 = search cosineScenarioIndex [1, 0] 2 :=
  search_deterministic cosineScenarioIndex [1, 0] 2 _ _ rfl rfl

/-- C5: the default similarity metric is cosine, and the §8 scenario —
vectors `[1,0]`, `[0,1]`, `[0.9,0.1]`, query `[1,0]`, `k = 2` — returns
the record with vector `[1,0]` first and the one with `[0.9,0.1]` second,
with their exact represented cosine scores. -/
theorem default_metric_cosine_scenario :
    defaultMetric = SimilarityMetric.cosine ∧
      search cosineScenarioIndex [1, 0] 2 =
        Except.ok [(rec0, (1, 1)), (rec2, (9/10, 41/50))] := by
  refine ⟨rfl, ?_⟩
  have h1 : rankLE cosineScenarioIndex.metric [1, 0] rec1 rec2 = false := by
    norm_num [cosineScenarioIndex, defaultMetric, rankLE, simLE, simScore, scoreLE,
      dot, normSq, rec1, rec2]
  have h2 : rankLE cosineScenarioIndex.metric [1, 0] rec0 rec2 = true := by
    norm_num [cosineScenarioIndex, defaultMetric, rankLE, simLE, simScore, scoreLE,
      dot, normSq, rec0, rec2]
  have hie : ¬(cosineScenarioIndex.records.isEmpty = true) := by
    simp [cosineScenarioIndex]
  rw [search, if_neg hie, if_neg (show ¬((2 : Int) ≤ 0) by decide)]
  have hsort : List.insertionSort
      (fun r₁ r₂ => rankLE cosineScenarioIndex.metric [1, 0] r₁ r₂ = true)
      cosineScenarioIndex.records = [rec0, rec2, rec1] := by
    show List.insertionSort _ [rec0, rec1, rec2] = _
    simp only [List.insertionSort, List.orderedInsert]
    rw [if_neg (show ¬(rankLE cosineScenarioIndex.metric [1, 0] rec1 rec2 = true) by
      rw [h1]; exact Bool.false_ne_true)]
    simp only [List.orderedInsert]
    rw [if_pos h2]
  rw [hsort]
  norm_num [List.take, simScore, dot, normSq, rec0, rec2, cosineScenarioIndex, defaultMetric]

/-! ## Persistence round trip -/

/-- Reading back an encoded vector returns the vector and the remaining
tokens. -/
theorem readVec_encode (v : List ℚ) (rest : List Token) :
    readVec v.length (v.map Token.rat ++ rest) = Except.ok (v, rest) := by
  induction v with
  | nil => rfl
  | cons q v ih =>
    simp only [List.length_cons, List.map_cons, List.cons_append, readVec, readRat, ih]

/-- Reading back an encoded record returns the record and the remaining
tokens, provided the record's vector has the expected dimension. -/
theorem readRecord_encode (dim : Nat) (r : EmbeddingRecord) (rest : List Token)
    (h : r.vector.length = dim) :
    readRecord dim (encodeRecord r ++ rest) = Except.ok (r, rest) := by
  subst h
  rcases r with ⟨i, v, d, os, oe, x⟩
  simp only [encodeRecord, List.cons_append, List.append_assoc, List.nil_append]
  simp only [readRecord, readNat, readVec_encode, readStr, List.cons_append]

/-- Reading back a list of encoded records returns the records and the
remaining tokens. -/
theorem readRecords_encode (dim : Nat) (rs : List EmbeddingRecord) (rest : List Token)
    (h : ∀ r ∈ rs, r.vector.length = dim) :
    readRecords rs.length dim (rs.flatMap encodeRecord ++ rest) = Except.ok (rs, rest) := by
  induction rs with
  | nil => rfl
  | cons r rs ih =>
    have h1 : r.vector.length = dim := h r (by simp)
    have h2 : ∀ r' ∈ rs, r'.vector.length = dim := fun r' hr' => h r' (by simp [hr'])
    simp only [List.length_cons, List.flatMap_cons, List.append_assoc]
    simp only [readRecords,
      readRecord_encode dim r (rs.flatMap encodeRecord ++ rest) h1, ih h2]

/-- C4: loading a saved index (with the index's own configured metric)
yields a Vector Index with identical records, dimension and metric, for
every index whose records respect the dimension invariant of spec §3. -/
theorem load_save_roundtrip (idx : VectorIndex)
    (h : ∀ r ∈ idx.records, r.vector.length = idx.dim) :
    load idx.metric (save idx) = Except.ok idx := by
  rcases idx with ⟨recs, dim, m⟩
  have hread := readRecords_encode dim recs [] h
  rw [List.append_nil] at hread
  cases m with
  | cosine =>
    show load SimilarityMetric.cosine
        (Token.nat dim :: Token.nat (metricCode SimilarityMetric.cosine) ::
          Token.nat recs.length :: recs.flatMap encodeRecord) = _
    simp [load, readNat, metricCode, decodeMetric, hread]
  | euclidean =>
    show load SimilarityMetric.euclidean
        (Token.nat dim :: Token.nat (metricCode SimilarityMetric.euclidean) ::
          Token.nat recs.length :: recs.flatMap encodeRecord) = _
    simp [load, readNat, metricCode, decodeMetric, hread]

/-- Witness for C4 on a two-record index of dimension 2. -/
theorem load_save_roundtrip_witness :
    (∀ r ∈ roundTripIndex.records, r.vector.length = roundTripIndex.dim) ∧
      load roundTripIndex.metric (save roundTripIndex) = Except.ok roundTripIndex :=
  ⟨by decide, load_save_roundtrip roundTripIndex (by decide)⟩

/-! ## Prompt assembly -/

/-- Every assembled prompt contains the literal fallback instruction
sentence verbatim. -/
theorem assemble_contains_fallback (question : String) (segments : List String) :
    ∃ a b : String, assemble question segments = a ++ fallbackSentence ++ b := by
  refine ⟨"\nYou are a helpful assistant.\n\nUse only the information in the context below to answer the question.\nIf the answer is not in the context, say:\n\x22",
    "\x22\n\nContext:\n" ++ String.intercalate "\n\n" segments ++ questionLabel ++
      question ++ promptTail, ?_⟩
  have hsplit : promptHeader =
      "\nYou are a helpful assistant.\n\nUse only the information in the context below to answer the question.\nIf the answer is not in the context, say:\n\x22" ++
        fallbackSentence ++ "\x22\n\nContext:\n" := rfl
  simp only [assemble, hsplit, String.append_assoc]

/-- Every assembled prompt contains the question, after the context. -/
theorem assemble_contains_question (question : String) (segments : List String) :
    ∃ a b : String, assemble question segments = a ++ question ++ b :=
  ⟨promptHeader ++ String.intercalate "\n\n" segments ++ questionLabel, promptTail, rfl⟩

/-- C7: the assembled prompt is the instruction header, then the segments
joined in order by a blank line, then the question, then the answer label;
it contains the fallback sentence verbatim; and with zero segments it
still contains both the question and the fallback sentence. -/
theorem assemble_prompt_spec (question : String) (segments : List String) :
    assemble question segments =
        promptHeader ++ String.intercalate "\n\n" segments ++ questionLabel ++
          question ++ promptTail
      ∧ (∃ a b : String, assemble question segments = a ++ fallbackSentence ++ b)
      ∧ assemble question [] = promptHeader ++ questionLabel ++ question ++ promptTail
      ∧ (∃ a b : String, assemble question [] = a ++ fallbackSentence ++ b)
      ∧ (∃ a b : String, assemble question [] = a ++ question ++ b) :=
  ⟨rfl, assemble_contains_fallback question segments, rfl,
    assemble_contains_fallback question [], assemble_contains_question question []⟩

/-! ## Custom document loader and build pipeline -/

/-- The loader loop with an arbitrary accumulator equals the accumulator
followed by the per-file contributions. -/
theorem customLoad_go (csvLoad pdfLoad : SrcFile → List Document) :
    ∀ (files : List SrcFile) (acc : List LoadedItem),
      List.foldl (fun documents file =>
        if strEndsWith file.name ".txt" then documents ++ [LoadedItem.rawText file.content]
        else if strEndsWith file.name ".csv" then
          documents ++ (csvLoad file).map LoadedItem.doc
        else if strEndsWith file.name ".pdf" then
          documents ++ (pdfLoad file).map LoadedItem.doc
        else documents) acc files
      = acc ++ files.flatMap (fileItems csvLoad pdfLoad) := by
  intro files
  induction files with
  | nil => intro acc; simp
  | cons f fs ih =>
    intro acc
    rw [List.foldl_cons, ih, List.flatMap_cons]
    have hstep : (if strEndsWith f.name ".txt" then acc ++ [LoadedItem.rawText f.content]
        else if strEndsWith f.name ".csv" then acc ++ (csvLoad f).map LoadedItem.doc
        else if strEndsWith f.name ".pdf" then acc ++ (pdfLoad f).map LoadedItem.doc
        else acc) = acc ++ fileItems csvLoad pdfLoad f := by
      simp only [fileItems]
      split_ifs <;> simp
    rw [hstep, List.append_assoc]

/-- C9: `CustomDocumentLoader.load` returns the concatenation, in file
order, of each file's contribution, and that contribution is: the file's
raw text as a plain string for a `.txt` file; the CSV loader's `Document`s
for a `.csv` file; the PDF loader's `Document`s for a `.pdf` file; and
nothing — a silent skip, no error — for every other extension. -/
theorem customLoad_heterogeneous (csvLoad pdfLoad : SrcFile → List Document)
    (files : List SrcFile) (f : SrcFile) :
    customLoad csvLoad pdfLoad files = files.flatMap (fileItems csvLoad pdfLoad)
      ∧ (strEndsWith f.name ".txt" = true →
          fileItems csvLoad pdfLoad f = [LoadedItem.rawText f.content])
      ∧ (strEndsWith f.name ".txt" = false → strEndsWith f.name ".csv" = true →
          fileItems csvLoad pdfLoad f = (csvLoad f).map LoadedItem.doc)
      ∧ (strEndsWith f.name ".txt" = false → strEndsWith f.name ".csv" = false →
          strEndsWith f.name ".pdf" = true →
          fileItems csvLoad pdfLoad f = (pdfLoad f).map LoadedItem.doc)
      ∧ (strEndsWith f.name ".txt" = false → strEndsWith f.name ".csv" = false →
          strEndsWith f.name ".pdf" = false → fileItems csvLoad pdfLoad f = []) := by
  refine ⟨?_, ?_, ?_, ?_, ?_⟩
  · simpa using customLoad_go csvLoad pdfLoad files []
  · intro h1
    simp [fileItems, h1]
  · intro h1 h2
    simp [fileItems, h1, h2]
  · intro h1 h2 h3
    simp [fileItems, h1, h2, h3]
  · intro h1 h2 h3
    simp [fileItems, h1, h2, h3]

/-- Witness for C9 on a four-file directory covering all branches. -/
theorem customLoad_heterogeneous_witness :
    (strEndsWith "a.txt" ".txt" = true) ∧
      fileItems (fun _ => [⟨"row", "b.csv"⟩]) (fun _ => [⟨"page", "c.pdf"⟩])
          ⟨"a.txt", "T"⟩ =
        [LoadedItem.rawText "T"] :=
  ⟨by decide,
    (customLoad_heterogeneous (fun _ => [⟨"row", "b.csv"⟩]) (fun _ => [⟨"page", "c.pdf"⟩])
      [⟨"a.txt", "T"⟩, ⟨"b.csv", "C"⟩, ⟨"c.pdf", "P"⟩, ⟨"d.md", "M"⟩]
      ⟨"a.txt", "T"⟩).2.1 (by decide)⟩

/-- C10: the built vector index depends only on the `.txt` files and not
on the CSV/PDF loaders: the build cell rebinds `docs` from the txt-only
`DirectoryLoader` before chunking and embedding, so everything
`CustomDocumentLoader.load` produced — including all CSV and PDF
content — is discarded and contributes no record. -/
theorem build_uses_only_txt (csvLoad pdfLoad csvLoad₂ pdfLoad₂ : SrcFile → List Document)
    (mkDoc : SrcFile → Document) (embed : String → List ℚ) (dim : Nat)
    (files : List SrcFile) :
    buildIndexFromFiles csvLoad pdfLoad mkDoc embed dim files =
      buildIndexFromFiles csvLoad₂ pdfLoad₂ mkDoc embed dim
        (files.filter (fun f => strEndsWith f.name ".txt")) := by
  simp [buildIndexFromFiles, directoryLoadTxt, List.filter_filter]
